import Mathlib

/-!
Shallow embedding of the blob-predicate utilities (`src/utils/blobUtils.ts`) and of the
signature normalizer described by the specification.

Bytes of a `Uint8Array` are modelled as `Fin 256`, byte arrays as `List Byte`,
JavaScript strings as `List Char`, thrown errors as `Except`, and the `null`
result of `parseLoaderStructure` as `Option`.  The external `sha256` primitive
imported from the `fuels` package (which returns a lowercase `0x`-prefixed hex
string of the 32-byte SHA-256 digest) is modelled as an explicit function
parameter, with `hexOfDigest` expressing its contract of hex-encoding a digest.
-/

abbrev Byte := Fin 256

/-- Truncate a natural number to a byte, as JavaScript typed-array stores do. -/
def byteOf (n : Nat) : Byte := ⟨n % 256, Nat.mod_lt _ (by norm_num)⟩

/-- One entry of the ABI `configurables` array: a named byte offset into the
program image (`abi.configurables[i].offset` in the source). -/
structure ConfigurableEntry where
  name : List Char
  offset : Nat
deriving DecidableEq

/-- The only error thrown by `blobUtils.ts`: `new Error('No configurables found in ABI')`. -/
inductive BlobError where
  | emptyLayout
deriving DecidableEq

/-- The `LoaderComponents` interface of the source. -/
structure LoaderComponents where
  instructions : List Byte
  blobId : List Byte
  sectionLength : Nat
  configurables : List Byte
deriving DecidableEq

/-- The character produced by JavaScript `b.toString(16)` for a single hex digit
`n < 16`: `0`-`9` then lowercase `a`-`f`. -/
def hexDigitChar (n : Nat) : Char := Char.ofNat (if n < 10 then 48 + n else 87 + n)

/-- The two characters of `b.toString(16).padStart(2, '0')` for a byte. -/
def byteToHexChars (b : Byte) : List Char := [hexDigitChar (b.val / 16), hexDigitChar (b.val % 16)]

/-- `bytesToHex` of the source: `'0x' + Array.from(bytes).map(b => b.toString(16).padStart(2, '0')).join('')`.
The identical inline expression appears in `verifyLoaderBlobId`. -/
def bytesToHex (bs : List Byte) : List Char :=
  '0' :: 'x' :: (bs.map byteToHexChars).flatten

/-- `getConfigurablesSectionOffset` of the source: throws when `abi.configurables`
is absent or empty, otherwise `Math.min(...abi.configurables.map(c => c.offset))`. -/
def getConfigurablesSectionOffset (abi : Option (List ConfigurableEntry)) : Except BlobError Nat :=
  match abi with
  | none => .error .emptyLayout
  | some [] => .error .emptyLayout
  | some (c :: cs) => .ok ((cs.map (fun e => e.offset)).foldl min c.offset)

/-- `splitPredicateBytecode` of the source: `bytecode.slice(0, off)` and
`bytecode.slice(off)`; JavaScript `slice` clamps, exactly like `take`/`drop`. -/
def splitPredicateBytecode (bytecode : List Byte) (abi : Option (List ConfigurableEntry)) :
    Except BlobError (List Byte × List Byte) := do
  let configurablesOffset ← getConfigurablesSectionOffset abi
  pure (bytecode.take configurablesOffset, bytecode.drop configurablesOffset)

/-- `calculateBlobId` of the source, parameterized by the external `sha256`
primitive (bytes in, hex string out). -/
def calculateBlobId (sha256 : List Byte → List Char) (bytecode : List Byte)
    (abi : Option (List ConfigurableEntry)) : Except BlobError (List Char) := do
  let p ← splitPredicateBytecode bytecode abi
  pure (sha256 p.1)

/-- The big-endian u64 decoding of the source: `sectionLengthBytes.reduce(
(acc, byte, i) => acc + BigInt(byte) * 256n ** BigInt(7 - i), 0n)`. -/
def beU64 (bs : List Byte) : Nat :=
  bs.enum.foldl (fun acc p => acc + p.2.val * 256 ^ (7 - p.1)) 0

/-- `parseLoaderStructure` of the source: `null` below 88 bytes, otherwise the
positional decomposition at offsets 0/48/80/88. -/
def parseLoaderStructure (loaderBytecode : List Byte) : Option LoaderComponents :=
  if loaderBytecode.length < 48 + 32 + 8 then
    none
  else
    some {
      instructions := loaderBytecode.take 48
      blobId := (loaderBytecode.drop 48).take 32
      sectionLength := beU64 ((loaderBytecode.drop 80).take 8)
      configurables := loaderBytecode.drop 88 }

/-- `verifyLoaderBlobId` of the source, parameterized by the same external
`sha256` primitive as `calculateBlobId`. -/
def verifyLoaderBlobId (sha256 : List Byte → List Char) (fullBytecode : List Byte)
    (fullAbi : Option (List ConfigurableEntry)) (loaderBytecode : List Byte) :
    Except BlobError Bool := do
  let expectedBlobId ← calculateBlobId sha256 fullBytecode fullAbi
  match parseLoaderStructure loaderBytecode with
  | none => pure false
  | some loaderComponents =>
      pure (decide (bytesToHex loaderComponents.blobId = expectedBlobId))

/-- The contract of the `fuels` `sha256` import: the lowercase `0x`-prefixed
hex encoding of a 32-byte digest function. -/
def hexOfDigest (digest : List Byte → List Byte) : List Byte → List Char :=
  fun bs => bytesToHex (digest bs)

/-- A direct fixed-width big-endian 64-bit read of the first eight bytes,
the reformulation the specification declares equivalent to `beU64`. -/
def readBeU64 (bs : List Byte) : Nat :=
  (bs.getD 0 0).val * 256 ^ 7 + (bs.getD 1 0).val * 256 ^ 6 +
  (bs.getD 2 0).val * 256 ^ 5 + (bs.getD 3 0).val * 256 ^ 4 +
  (bs.getD 4 0).val * 256 ^ 3 + (bs.getD 5 0).val * 256 ^ 2 +
  (bs.getD 6 0).val * 256 ^ 1 + (bs.getD 7 0).val

/-- The error of the signature normalizer: input not exactly 65 bytes. -/
inductive SigError where
  | malformedSignature
deriving DecidableEq

/-- Normalization of the recovery indicator to a parity bit: `v mod 2` after
subtracting 27 when `v ≥ 27`, accepting both the 27/28 and 0/1 conventions. -/
def normalizedParity (v : Nat) : Nat := (if 27 ≤ v then v - 27 else v) % 2

/-- Modelled from the spec: the repository's `toCompactSignature`
(`src/utils/signatureUtils.ts`) is imported by the tests but its source file is
not in the repository snapshot.  Per the specification it extracts `r` (bytes
0-31), `s` (bytes 32-63) and `v` (byte 64), normalizes `v` to a parity bit,
sets the most significant bit of the first byte of `s` to that parity while
preserving all other bits, and returns the 64 bytes `r` followed by the
adjusted `s`; any input not exactly 65 bytes long fails with
`MalformedSignature`. -/
def toCompactSignature (sig : List Byte) : Except SigError (List Byte) :=
  if sig.length = 65 then
    let r := sig.take 32
    let sTail := (sig.drop 33).take 31
    let v := (sig.getD 64 0).val
    let s0 := (sig.getD 32 0).val
    let s0' := byteOf (s0 % 128 + normalizedParity v * 128)
    .ok (r ++ (s0' :: sTail))
  else .error .malformedSignature

/-! ### Helper lemmas: injectivity of the hex encoding -/

theorem hexDigitChar_inj_lt : ∀ a < 16, ∀ b < 16, hexDigitChar a = hexDigitChar b → a = b := by
  decide

theorem byteToHexChars_inj (a b : Byte) (h : byteToHexChars a = byteToHexChars b) : a = b := by
  simp only [byteToHexChars, List.cons.injEq, and_true] at h
  obtain ⟨h1, h2⟩ := h
  have ha := a.isLt
  have hb := b.isLt
  have hd : a.val / 16 = b.val / 16 :=
    hexDigitChar_inj_lt _ (by omega) _ (by omega) h1
  have hm : a.val % 16 = b.val % 16 :=
    hexDigitChar_inj_lt _ (by omega) _ (by omega) h2
  exact Fin.ext (by omega)

theorem hexFlatten_inj : ∀ as bs : List Byte,
    (as.map byteToHexChars).flatten = (bs.map byteToHexChars).flatten → as = bs := by
  intro as
  induction as with
  | nil =>
      intro bs h
      cases bs with
      | nil => rfl
      | cons b tb => simp [byteToHexChars] at h
  | cons a ta ih =>
      intro bs h
      cases bs with
      | nil => simp [byteToHexChars] at h
      | cons b tb =>
          simp only [List.map_cons, List.flatten_cons, byteToHexChars, List.cons_append,
            List.nil_append, List.cons.injEq] at h
          obtain ⟨h1, h2, h3⟩ := h
          have hab : a = b := byteToHexChars_inj a b (by simp [byteToHexChars, h1, h2])
          rw [hab, ih tb h3]

theorem bytesToHex_inj (as bs : List Byte) (h : bytesToHex as = bytesToHex bs) : as = bs := by
  simp only [bytesToHex, List.cons.injEq, true_and] at h
  exact hexFlatten_inj as bs h

/-! ### Helper lemmas: `foldl min` computes the minimum of a list -/

theorem foldl_min_mem (xs : List Nat) : ∀ a, xs.foldl min a = a ∨ xs.foldl min a ∈ xs := by
  induction xs with
  | nil => exact fun _ => Or.inl rfl
  | cons x t ih =>
      intro a
      rw [List.foldl_cons]
      rcases ih (min a x) with h | h
      · rw [h]
        rcases Nat.le_total a x with hle | hle
        · exact Or.inl (Nat.min_eq_left hle)
        · exact Or.inr (by rw [Nat.min_eq_right hle]; exact List.mem_cons_self x t)
      · exact Or.inr (List.mem_cons_of_mem x h)

theorem foldl_min_le_init (xs : List Nat) : ∀ a, xs.foldl min a ≤ a := by
  induction xs with
  | nil => exact fun a => Nat.le_refl a
  | cons x t ih =>
      intro a
      rw [List.foldl_cons]
      exact Nat.le_trans (ih (min a x)) (Nat.min_le_left a x)

theorem foldl_min_le_mem (xs : List Nat) : ∀ a x, x ∈ xs → xs.foldl min a ≤ x := by
  induction xs with
  | nil => intro a x hx; cases hx
  | cons y t ih =>
      intro a x hx
      rw [List.foldl_cons]
      rcases List.mem_cons.mp hx with rfl | hx
      · exact Nat.le_trans (foldl_min_le_init t (min a x)) (Nat.min_le_right a x)
      · exact ih (min a y) x hx

/-! ### Helper lemmas: reduction of the blob utilities on non-empty layouts -/

theorem getConfigurablesSectionOffset_cons (c : ConfigurableEntry) (cs : List ConfigurableEntry) :
    getConfigurablesSectionOffset (some (c :: cs)) =
      .ok ((cs.map (fun e => e.offset)).foldl min c.offset) := rfl

theorem splitPredicateBytecode_cons (bytecode : List Byte) (c : ConfigurableEntry)
    (cs : List ConfigurableEntry) :
    splitPredicateBytecode bytecode (some (c :: cs)) =
      .ok (bytecode.take ((cs.map (fun e => e.offset)).foldl min c.offset),
           bytecode.drop ((cs.map (fun e => e.offset)).foldl min c.offset)) := rfl

theorem calculateBlobId_cons (sha256 : List Byte → List Char) (bytecode : List Byte)
    (c : ConfigurableEntry) (cs : List ConfigurableEntry) :
    calculateBlobId sha256 bytecode (some (c :: cs)) =
      .ok (sha256 (bytecode.take ((cs.map (fun e => e.offset)).foldl min c.offset))) := rfl

theorem parseLoaderStructure_none_iff (l : List Byte) :
    parseLoaderStructure l = none ↔ l.length < 88 := by
  by_cases h : l.length < 88
  · simp [parseLoaderStructure, h]
  · simp [parseLoaderStructure, h]

theorem parseLoaderStructure_of_le (l : List Byte) (h : 88 ≤ l.length) :
    parseLoaderStructure l = some {
      instructions := l.take 48
      blobId := (l.drop 48).take 32
      sectionLength := beU64 ((l.drop 80).take 8)
      configurables := l.drop 88 } := by
  unfold parseLoaderStructure
  rw [if_neg (by omega)]

theorem verify_of_parse_none (sha256 : List Byte → List Char) (full loader : List Byte)
    (c : ConfigurableEntry) (cs : List ConfigurableEntry)
    (hp : parseLoaderStructure loader = none) :
    verifyLoaderBlobId sha256 full (some (c :: cs)) loader = .ok false := by
  unfold verifyLoaderBlobId
  rw [calculateBlobId_cons, hp]
  rfl

theorem verify_of_parse_some (sha256 : List Byte → List Char) (full loader : List Byte)
    (c : ConfigurableEntry) (cs : List ConfigurableEntry) (lc : LoaderComponents)
    (hp : parseLoaderStructure loader = some lc) :
    verifyLoaderBlobId sha256 full (some (c :: cs)) loader =
      .ok (decide (bytesToHex lc.blobId =
        sha256 (full.take ((cs.map (fun e => e.offset)).foldl min c.offset)))) := by
  unfold verifyLoaderBlobId
  rw [calculateBlobId_cons, hp]
  rfl

theorem verify_eq_decide (digest : List Byte → List Byte) (full loader : List Byte)
    (c : ConfigurableEntry) (cs : List ConfigurableEntry) :
    verifyLoaderBlobId (hexOfDigest digest) full (some (c :: cs)) loader =
      .ok (decide (88 ≤ loader.length ∧
        (loader.drop 48).take 32 =
          digest (full.take ((cs.map (fun e => e.offset)).foldl min c.offset)))) := by
  by_cases h : loader.length < 88
  · rw [verify_of_parse_none (hexOfDigest digest) full loader c cs
      ((parseLoaderStructure_none_iff loader).mpr h)]
    have hnot : ¬ (88 ≤ loader.length ∧
        (loader.drop 48).take 32 =
          digest (full.take ((cs.map (fun e => e.offset)).foldl min c.offset))) :=
      fun hcon => absurd hcon.1 (by omega)
    rw [decide_eq_false hnot]
  · rw [verify_of_parse_some (hexOfDigest digest) full loader c cs _
      (parseLoaderStructure_of_le loader (by omega))]
    have hiff : (bytesToHex ((loader.drop 48).take 32) =
        hexOfDigest digest (full.take ((cs.map (fun e => e.offset)).foldl min c.offset))) ↔
        (88 ≤ loader.length ∧
          (loader.drop 48).take 32 =
            digest (full.take ((cs.map (fun e => e.offset)).foldl min c.offset))) := by
      constructor
      · intro hhex
        exact ⟨by omega, bytesToHex_inj _ _ hhex⟩
      · intro hcon
        exact congrArg bytesToHex hcon.2
    rw [decide_eq_decide.mpr hiff]

theorem beU64_eq_read (bs : List Byte) (h : bs.length = 8) : beU64 bs = readBeU64 bs := by
  obtain ⟨b0, bs, rfl⟩ := @List.exists_of_length_succ _ 7 bs (by omega)
  simp only [List.length_cons] at h
  obtain ⟨b1, bs, rfl⟩ := @List.exists_of_length_succ _ 6 bs (by omega)
  simp only [List.length_cons] at h
  obtain ⟨b2, bs, rfl⟩ := @List.exists_of_length_succ _ 5 bs (by omega)
  simp only [List.length_cons] at h
  obtain ⟨b3, bs, rfl⟩ := @List.exists_of_length_succ _ 4 bs (by omega)
  simp only [List.length_cons] at h
  obtain ⟨b4, bs, rfl⟩ := @List.exists_of_length_succ _ 3 bs (by omega)
  simp only [List.length_cons] at h
  obtain ⟨b5, bs, rfl⟩ := @List.exists_of_length_succ _ 2 bs (by omega)
  simp only [List.length_cons] at h
  obtain ⟨b6, bs, rfl⟩ := @List.exists_of_length_succ _ 1 bs (by omega)
  simp only [List.length_cons] at h
  obtain ⟨b7, bs, rfl⟩ := @List.exists_of_length_succ _ 0 bs (by omega)
  simp only [List.length_cons] at h
  obtain rfl : bs = [] := List.length_eq_zero.mp (by omega)
  simp [beU64, readBeU64, List.enum, List.enumFrom]

/-! ### The claims -/

/-- C1: for every full program image, every non-empty layout, and every loader byte
sequence, `verifyLoaderBlobId` returns `true` exactly when the loader is at least
88 bytes long and its bytes at offsets 48 through 79 equal the digest of the full
program's code section, the section hashed by `calculateBlobId`; a short loader
yields `false` and no error is ever raised (the result is always an `ok` value). -/
theorem claim_C1_verify_iff (digest : List Byte → List Byte) (full loader : List Byte)
    (c : ConfigurableEntry) (cs : List ConfigurableEntry) (off : Nat)
    (hoff : getConfigurablesSectionOffset (some (c :: cs)) = .ok off) :
    verifyLoaderBlobId (hexOfDigest digest) full (some (c :: cs)) loader =
      .ok (decide (88 ≤ loader.length ∧
        (loader.drop 48).take 32 = digest (full.take off))) := by
  have hmo : (cs.map (fun e => e.offset)).foldl min c.offset = off :=
    Except.ok.inj ((getConfigurablesSectionOffset_cons c cs).symm.trans hoff)
  rw [← hmo]
  exact verify_eq_decide digest full loader c cs

/-- Witness for C1 at a concrete empty image and loader. -/
theorem claim_C1_verify_iff_witness :
    getConfigurablesSectionOffset (some [⟨['k'], 0⟩]) = .ok 0 ∧
    verifyLoaderBlobId (hexOfDigest (fun _ => List.replicate 32 0)) [] (some [⟨['k'], 0⟩]) [] =
      .ok (decide (88 ≤ ([] : List Byte).length ∧
        (([] : List Byte).drop 48).take 32 = List.replicate 32 (0 : Byte))) :=
  ⟨rfl, claim_C1_verify_iff (fun _ => List.replicate 32 0) [] [] ⟨['k'], 0⟩ [] 0 rfl⟩

/-- C2: mutating any single byte among offsets 48 through 79 of a loader that
verifies to `true` (with the same full image and layout) makes
`verifyLoaderBlobId` return `false`. -/
theorem claim_C2_tamper (digest : List Byte → List Byte) (full loader : List Byte)
    (c : ConfigurableEntry) (cs : List ConfigurableEntry) (i : Nat) (b : Byte)
    (hv : verifyLoaderBlobId (hexOfDigest digest) full (some (c :: cs)) loader = .ok true)
    (h48 : 48 ≤ i) (h80 : i < 80) (hb : b ≠ loader.getD i 0) :
    verifyLoaderBlobId (hexOfDigest digest) full (some (c :: cs)) (loader.set i b) =
      .ok false := by
  obtain ⟨j, rfl⟩ : ∃ j, i = 48 + j := ⟨i - 48, by omega⟩
  have hj : j < 32 := by omega
  have hv' := (verify_eq_decide digest full loader c cs).symm.trans hv
  obtain ⟨hlen, hslice⟩ := of_decide_eq_true (Except.ok.inj hv')
  have hil : 48 + j < loader.length := by omega
  rw [verify_eq_decide digest full (loader.set (48 + j) b) c cs]
  have hnot : ¬ (88 ≤ (loader.set (48 + j) b).length ∧
      ((loader.set (48 + j) b).drop 48).take 32 =
        digest (full.take ((cs.map (fun e => e.offset)).foldl min c.offset))) := by
    rintro ⟨-, hslice'⟩
    have hsl : ((loader.set (48 + j) b).drop 48).take 32 = (loader.drop 48).take 32 :=
      hslice'.trans hslice.symm
    have e2 := congrArg (fun t => t.getD j (0 : Byte)) hsl
    simp only at e2
    have hlb : j < (((loader.set (48 + j) b).drop 48).take 32).length := by
      rw [List.length_take, List.length_drop, List.length_set]
      omega
    have hlb2 : j < ((loader.drop 48).take 32).length := by
      rw [List.length_take, List.length_drop]
      omega
    rw [List.getD_eq_getElem?_getD, List.getD_eq_getElem?_getD,
        List.getElem?_eq_getElem hlb, List.getElem?_eq_getElem hlb2,
        Option.getD_some, Option.getD_some] at e2
    rw [List.getElem_take, List.getElem_drop] at e2
    rw [List.getElem_take, List.getElem_drop] at e2
    rw [List.getElem_set_self] at e2
    apply hb
    rw [List.getD_eq_getElem?_getD, List.getElem?_eq_getElem hil, Option.getD_some]
    exact e2
  rw [decide_eq_false hnot]

/-- Witness for C2: tampering with byte 48 of a concretely verifying loader. -/
theorem claim_C2_tamper_witness :
    verifyLoaderBlobId (hexOfDigest (fun _ => List.replicate 32 0)) [] (some [⟨['k'], 0⟩])
        (List.replicate 88 0) = .ok true ∧
    48 ≤ 48 ∧ 48 < 80 ∧ (1 : Byte) ≠ (List.replicate 88 (0 : Byte)).getD 48 0 ∧
    verifyLoaderBlobId (hexOfDigest (fun _ => List.replicate 32 0)) [] (some [⟨['k'], 0⟩])
        ((List.replicate 88 0).set 48 1) = .ok false :=
  ⟨by rfl, by omega, by omega, by decide,
    claim_C2_tamper (fun _ => List.replicate 32 0) [] (List.replicate 88 0) ⟨['k'], 0⟩ [] 48 1
      (by rfl) (by omega) (by omega) (by decide)⟩

/-- C3: `calculateBlobId` depends only on the bytes of the image below the layout's
minimum offset; two images with byte-identical code sections receive the same
blob id however their configurables sections differ. -/
theorem claim_C3_section_independence (sha256 : List Byte → List Char) (img1 img2 : List Byte)
    (c : ConfigurableEntry) (cs : List ConfigurableEntry) (off : Nat)
    (hoff : getConfigurablesSectionOffset (some (c :: cs)) = .ok off)
    (hcode : img1.take off = img2.take off) :
    calculateBlobId sha256 img1 (some (c :: cs)) =
      calculateBlobId sha256 img2 (some (c :: cs)) := by
  have hmo : (cs.map (fun e => e.offset)).foldl min c.offset = off :=
    Except.ok.inj ((getConfigurablesSectionOffset_cons c cs).symm.trans hoff)
  rw [calculateBlobId_cons, calculateBlobId_cons, hmo, hcode]

/-- Witness for C3 with two images agreeing on their first byte only. -/
theorem claim_C3_section_independence_witness :
    getConfigurablesSectionOffset (some [⟨['k'], 1⟩]) = .ok 1 ∧
    ([(5 : Byte)].take 1 = [(5 : Byte), 7].take 1) ∧
    calculateBlobId bytesToHex [5] (some [⟨['k'], 1⟩]) =
      calculateBlobId bytesToHex [5, 7] (some [⟨['k'], 1⟩]) :=
  ⟨rfl, by decide,
    claim_C3_section_independence bytesToHex [5] [5, 7] ⟨['k'], 1⟩ [] 1 rfl (by decide)⟩

/-- C4: `parseLoaderStructure` returns `none` (`NotALoader`) on every byte sequence
shorter than 88 bytes and a `LoaderComponents` decomposition on every byte sequence
of length at least 88; being a total function it raises no exception. -/
theorem claim_C4_short_rejection (l : List Byte) :
    (l.length < 88 → parseLoaderStructure l = none) ∧
    (88 ≤ l.length → ∃ lc, parseLoaderStructure l = some lc) := by
  constructor
  · exact fun h => (parseLoaderStructure_none_iff l).mpr h
  · intro h
    exact ⟨_, parseLoaderStructure_of_le l h⟩

/-- Witness for C4 on a 10-byte input. -/
theorem claim_C4_short_rejection_witness :
    (List.replicate 10 (0 : Byte)).length < 88 ∧
    parseLoaderStructure (List.replicate 10 0) = none :=
  ⟨by decide, (claim_C4_short_rejection (List.replicate 10 0)).1 (by decide)⟩

/-- C5: on every loader of length at least 88, `parseLoaderStructure` returns the
bytes `[0, 48)` as instructions, `[48, 80)` as blob id, the big-endian unsigned
64-bit value of bytes `[80, 88)` as section length (equal to a direct fixed-width
big-endian read, `readBeU64`), and consequently a loader concatenated from a
48-byte instruction block, a known 32-byte blob id, 8 length bytes and
configurables parses to a blob id that hex-encodes back to that blob id. -/
theorem claim_C5_positional_parse (l ins bid lenb cfg : List Byte) (h : 88 ≤ l.length)
    (hins : ins.length = 48) (hbid : bid.length = 32) (hlenb : lenb.length = 8) :
    parseLoaderStructure l = some {
        instructions := l.take 48
        blobId := (l.drop 48).take 32
        sectionLength := readBeU64 ((l.drop 80).take 8)
        configurables := l.drop 88 } ∧
    (parseLoaderStructure (ins ++ (bid ++ (lenb ++ cfg)))).map (fun lc => bytesToHex lc.blobId) =
      some (bytesToHex bid) := by
  constructor
  · rw [parseLoaderStructure_of_le l h]
    have h8 : ((l.drop 80).take 8).length = 8 := by
      rw [List.length_take, List.length_drop]
      omega
    rw [beU64_eq_read _ h8]
  · have hlen : 88 ≤ (ins ++ (bid ++ (lenb ++ cfg))).length := by
      simp only [List.length_append]
      omega
    rw [parseLoaderStructure_of_le _ hlen]
    have hslice : ((ins ++ (bid ++ (lenb ++ cfg))).drop 48).take 32 = bid := by
      rw [List.drop_left' hins, List.take_left' hbid]
    simp only [Option.map_some', hslice]

/-- Witness for C5 on an 88-byte all-zero loader and a concrete concatenation. -/
theorem claim_C5_positional_parse_witness :
    88 ≤ (List.replicate 88 (0 : Byte)).length ∧
    (List.replicate 48 (0 : Byte)).length = 48 ∧
    (List.replicate 32 (1 : Byte)).length = 32 ∧
    (List.replicate 8 (0 : Byte)).length = 8 ∧
    (parseLoaderStructure (List.replicate 88 0) = some {
        instructions := (List.replicate 88 (0 : Byte)).take 48
        blobId := ((List.replicate 88 (0 : Byte)).drop 48).take 32
        sectionLength := readBeU64 (((List.replicate 88 (0 : Byte)).drop 80).take 8)
        configurables := (List.replicate 88 (0 : Byte)).drop 88 } ∧
      (parseLoaderStructure (List.replicate 48 0 ++ (List.replicate 32 1 ++
          (List.replicate 8 0 ++ ([] : List Byte))))).map (fun lc => bytesToHex lc.blobId) =
        some (bytesToHex (List.replicate 32 1))) :=
  ⟨by decide, by decide, by decide, by decide,
    claim_C5_positional_parse (List.replicate 88 0) (List.replicate 48 0)
      (List.replicate 32 1) (List.replicate 8 0) [] (by decide) (by decide) (by decide)
      (by decide)⟩

/-- C6 counterexample: `parseLoaderStructure` does not return a configurables
component of exactly `sectionLength` bytes for every loader of length at least 88;
an 89-byte all-zero loader decodes a section length of 0 yet receives a 1-byte
configurables component. -/
theorem claim_C6_counterexample :
    ¬ (∀ (l : List Byte) (lc : LoaderComponents), 88 ≤ l.length →
        parseLoaderStructure l = some lc → lc.configurables.length = lc.sectionLength) := by
  intro h
  have h89 : (88 : Nat) ≤ (List.replicate 89 (0 : Byte)).length := by decide
  have := h (List.replicate 89 0) _ h89 (parseLoaderStructure_of_le (List.replicate 89 0) h89)
  exact absurd this (by decide)

/-- C6 amended: the configurables component returned by `parseLoaderStructure`
consists of all bytes from offset 88 to the end of the loader (its length is the
loader's length minus 88, whatever `sectionLength` decodes to); it has exactly
`sectionLength` bytes precisely when the loader's total length is
`88 + sectionLength`. -/
theorem claim_C6_amended (l : List Byte) (h : 88 ≤ l.length) :
    ∃ lc, parseLoaderStructure l = some lc ∧
      lc.configurables = l.drop 88 ∧
      lc.configurables.length = l.length - 88 ∧
      (lc.configurables.length = lc.sectionLength ↔ l.length = 88 + lc.sectionLength) := by
  refine ⟨_, parseLoaderStructure_of_le l h, rfl, ?_, ?_⟩
  · rw [List.length_drop]
  · rw [List.length_drop]
    omega

/-- Witness for C6 amended on a 90-byte loader. -/
theorem claim_C6_amended_witness :
    88 ≤ (List.replicate 90 (0 : Byte)).length ∧
    ∃ lc, parseLoaderStructure (List.replicate 90 (0 : Byte)) = some lc ∧
      lc.configurables = (List.replicate 90 (0 : Byte)).drop 88 ∧
      lc.configurables.length = (List.replicate 90 (0 : Byte)).length - 88 ∧
      (lc.configurables.length = lc.sectionLength ↔
        (List.replicate 90 (0 : Byte)).length = 88 + lc.sectionLength) :=
  ⟨by decide, claim_C6_amended (List.replicate 90 0) (by decide)⟩

/-- C7 counterexample: `splitPredicateBytecode` does not fail when the layout's
minimum offset exceeds the image length; on the empty image with an entry at
offset 5 it returns an `ok` pair, so no input with an out-of-range offset
produces a raised error. -/
theorem claim_C7_counterexample :
    ¬ (∀ (img : List Byte) (c : ConfigurableEntry) (cs : List ConfigurableEntry) (off : Nat),
        getConfigurablesSectionOffset (some (c :: cs)) = .ok off →
        img.length < off →
        ∃ e, splitPredicateBytecode img (some (c :: cs)) = .error e) := by
  intro h
  obtain ⟨e, he⟩ := h [] ⟨['a'], 5⟩ [] 5 rfl (by decide)
  rw [splitPredicateBytecode_cons] at he
  exact Except.noConfusion he

/-- C7 amended: when the layout's minimum offset strictly exceeds the image
length, `splitPredicateBytecode` returns normally (JavaScript `slice` clamps):
the code section is the whole image and the configurables section is empty. -/
theorem claim_C7_amended (img : List Byte) (c : ConfigurableEntry) (cs : List ConfigurableEntry)
    (off : Nat) (hoff : getConfigurablesSectionOffset (some (c :: cs)) = .ok off)
    (hlt : img.length < off) :
    splitPredicateBytecode img (some (c :: cs)) = .ok (img, []) := by
  have hmo : (cs.map (fun e => e.offset)).foldl min c.offset = off :=
    Except.ok.inj ((getConfigurablesSectionOffset_cons c cs).symm.trans hoff)
  rw [splitPredicateBytecode_cons, hmo, List.take_of_length_le (by omega),
    List.drop_eq_nil_of_le (by omega)]

/-- Witness for C7 amended: empty image, single entry at offset 5. -/
theorem claim_C7_amended_witness :
    getConfigurablesSectionOffset (some [⟨['a'], 5⟩]) = .ok 5 ∧
    ([] : List Byte).length < 5 ∧
    splitPredicateBytecode [] (some [⟨['a'], 5⟩]) = .ok ([], []) :=
  ⟨rfl, by decide, claim_C7_amended [] ⟨['a'], 5⟩ [] 5 rfl (by decide)⟩

/-- C8: `getConfigurablesSectionOffset` fails with the empty-layout error when the
configurables entry set is absent or empty, and on any non-empty entry set it
returns an offset that belongs to the entries and is a lower bound of all their
offsets, i.e. the minimum offset. -/
theorem claim_C8_min_offset :
    getConfigurablesSectionOffset none = .error .emptyLayout ∧
    getConfigurablesSectionOffset (some []) = .error .emptyLayout ∧
    ∀ (c : ConfigurableEntry) (cs : List ConfigurableEntry), ∃ off,
      getConfigurablesSectionOffset (some (c :: cs)) = .ok off ∧
      off ∈ (c :: cs).map (fun e => e.offset) ∧
      ∀ e ∈ c :: cs, off ≤ e.offset := by
  refine ⟨rfl, rfl, fun c cs =>
    ⟨(cs.map (fun e => e.offset)).foldl min c.offset,
      getConfigurablesSectionOffset_cons c cs, ?_, ?_⟩⟩
  · simp only [List.map_cons]
    rcases foldl_min_mem (cs.map (fun e => e.offset)) c.offset with h | h
    · rw [h]
      exact List.mem_cons_self _ _
    · exact List.mem_cons_of_mem _ h
  · intro e he
    rcases List.mem_cons.mp he with rfl | he
    · exact foldl_min_le_init _ _
    · exact foldl_min_le_mem _ _ _ (List.mem_map_of_mem _ he)

/-- Witness for C8 on a two-entry layout with offsets 7 and 3. -/
theorem claim_C8_min_offset_witness :
    ∃ off, getConfigurablesSectionOffset (some [⟨['a'], 7⟩, ⟨['b'], 3⟩]) = .ok off ∧
      off ∈ ([⟨['a'], 7⟩, ⟨['b'], 3⟩] : List ConfigurableEntry).map (fun e => e.offset) ∧
      ∀ e ∈ ([⟨['a'], 7⟩, ⟨['b'], 3⟩] : List ConfigurableEntry), off ≤ e.offset :=
  claim_C8_min_offset.2.2 ⟨['a'], 7⟩ [⟨['b'], 3⟩]

/-- C10: on every image and non-empty layout, `splitPredicateBytecode` returns
without error, the two returned sections concatenate back to the input image, and
when the minimum offset exceeds the image length the code section is the whole
image and the configurables section is empty. -/
theorem claim_C10_split_roundtrip (img : List Byte) (c : ConfigurableEntry)
    (cs : List ConfigurableEntry) (off : Nat)
    (hoff : getConfigurablesSectionOffset (some (c :: cs)) = .ok off) :
    ∃ p, splitPredicateBytecode img (some (c :: cs)) = .ok p ∧
      p.1 ++ p.2 = img ∧
      (img.length < off → p.1 = img ∧ p.2 = []) := by
  have hmo : (cs.map (fun e => e.offset)).foldl min c.offset = off :=
    Except.ok.inj ((getConfigurablesSectionOffset_cons c cs).symm.trans hoff)
  refine ⟨(img.take off, img.drop off), ?_, List.take_append_drop off img, ?_⟩
  · rw [splitPredicateBytecode_cons, hmo]
  · intro hlt
    exact ⟨List.take_of_length_le (by omega), List.drop_eq_nil_of_le (by omega)⟩

/-- Witness for C10 on a 2-byte image split at offset 1. -/
theorem claim_C10_split_roundtrip_witness :
    getConfigurablesSectionOffset (some [⟨['k'], 1⟩]) = .ok 1 ∧
    ∃ p, splitPredicateBytecode [5, 7] (some [⟨['k'], 1⟩]) = .ok p ∧
      p.1 ++ p.2 = [(5 : Byte), 7] ∧
      ([(5 : Byte), 7].length < 1 → p.1 = [(5 : Byte), 7] ∧ p.2 = []) :=
  ⟨rfl, claim_C10_split_roundtrip [5, 7] ⟨['k'], 1⟩ [] 1 rfl⟩

/-- C9: for every 65-byte signature, `toCompactSignature` returns exactly 64
bytes whose first 32 bytes are `r`, whose byte 32 carries the normalized parity
bit in its most significant bit while preserving the low 7 bits of `s`'s first
byte, and whose remaining bytes are the rest of `s` unchanged; any input that is
not exactly 65 bytes fails with `MalformedSignature`. -/
theorem claim_C9_compact_shape (sig : List Byte) :
    (sig.length ≠ 65 → toCompactSignature sig = .error .malformedSignature) ∧
    (sig.length = 65 → ∃ out, toCompactSignature sig = .ok out ∧
      out.length = 64 ∧
      out.take 32 = sig.take 32 ∧
      (out.getD 32 0).val / 128 = normalizedParity (sig.getD 64 0).val ∧
      (out.getD 32 0).val % 128 = (sig.getD 32 0).val % 128 ∧
      out.drop 33 = (sig.drop 33).take 31) := by
  constructor
  · intro h
    unfold toCompactSignature
    rw [if_neg h]
  · intro h
    have hr : (sig.take 32).length = 32 := by
      rw [List.length_take]
      omega
    have htail : ((sig.drop 33).take 31).length = 31 := by
      rw [List.length_take, List.length_drop]
      omega
    have hparity : normalizedParity (sig.getD 64 0).val < 2 :=
      Nat.mod_lt _ (by norm_num)
    have hs0 : (sig.getD 32 0).val % 128 < 128 := Nat.mod_lt _ (by norm_num)
    have hbv : (byteOf ((sig.getD 32 0).val % 128 +
        normalizedParity (sig.getD 64 0).val * 128)).val =
        (sig.getD 32 0).val % 128 + normalizedParity (sig.getD 64 0).val * 128 := by
      unfold byteOf
      exact Nat.mod_eq_of_lt (by omega)
    refine ⟨sig.take 32 ++ (byteOf ((sig.getD 32 0).val % 128 +
      normalizedParity (sig.getD 64 0).val * 128) :: (sig.drop 33).take 31),
      ?_, ?_, ?_, ?_, ?_, ?_⟩
    · unfold toCompactSignature
      rw [if_pos h]
    · rw [List.length_append, List.length_cons, hr, htail]
    · rw [List.take_left' hr]
    · have he : ((sig.take 32 ++ (byteOf ((sig.getD 32 0).val % 128 +
          normalizedParity (sig.getD 64 0).val * 128) :: (sig.drop 33).take 31)).getD 32 0) =
          byteOf ((sig.getD 32 0).val % 128 + normalizedParity (sig.getD 64 0).val * 128) := by
        have hlt : 32 < (sig.take 32 ++ (byteOf ((sig.getD 32 0).val % 128 +
            normalizedParity (sig.getD 64 0).val * 128) :: (sig.drop 33).take 31)).length := by
          rw [List.length_append, List.length_cons, hr, htail]
          omega
        rw [List.getD_eq_getElem?_getD, List.getElem?_eq_getElem hlt, Option.getD_some,
          List.getElem_append_right (by omega)]
        simp [hr]
      rw [he, hbv]
      omega
    · have he : ((sig.take 32 ++ (byteOf ((sig.getD 32 0).val % 128 +
          normalizedParity (sig.getD 64 0).val * 128) :: (sig.drop 33).take 31)).getD 32 0) =
          byteOf ((sig.getD 32 0).val % 128 + normalizedParity (sig.getD 64 0).val * 128) := by
        have hlt : 32 < (sig.take 32 ++ (byteOf ((sig.getD 32 0).val % 128 +
            normalizedParity (sig.getD 64 0).val * 128) :: (sig.drop 33).take 31)).length := by
          rw [List.length_append, List.length_cons, hr, htail]
          omega
        rw [List.getD_eq_getElem?_getD, List.getElem?_eq_getElem hlt, Option.getD_some,
          List.getElem_append_right (by omega)]
        simp [hr]
      rw [he, hbv]
      omega
    · have h33 : (33 : Nat) = (sig.take 32 ++ [byteOf ((sig.getD 32 0).val % 128 +
          normalizedParity (sig.getD 64 0).val * 128)]).length := by
        rw [List.length_append, List.length_cons, List.length_nil, hr]
      have hassoc : sig.take 32 ++ (byteOf ((sig.getD 32 0).val % 128 +
          normalizedParity (sig.getD 64 0).val * 128) :: (sig.drop 33).take 31) =
          (sig.take 32 ++ [byteOf ((sig.getD 32 0).val % 128 +
            normalizedParity (sig.getD 64 0).val * 128)]) ++ (sig.drop 33).take 31 := by
        rw [List.append_assoc, List.singleton_append]
      rw [hassoc, h33, List.drop_left]

/-- Witness for C9 on the all-zero signature with recovery byte 27. -/
theorem claim_C9_compact_shape_witness :
    (List.replicate 64 (0 : Byte) ++ [(27 : Byte)]).length = 65 ∧
    ∃ out, toCompactSignature (List.replicate 64 0 ++ [27]) = .ok out ∧
      out.length = 64 ∧
      out.take 32 = (List.replicate 64 (0 : Byte) ++ [(27 : Byte)]).take 32 ∧
      (out.getD 32 0).val / 128 =
        normalizedParity ((List.replicate 64 (0 : Byte) ++ [(27 : Byte)]).getD 64 0).val ∧
      (out.getD 32 0).val % 128 =
        ((List.replicate 64 (0 : Byte) ++ [(27 : Byte)]).getD 32 0).val % 128 ∧
      out.drop 33 = ((List.replicate 64 (0 : Byte) ++ [(27 : Byte)]).drop 33).take 31 :=
  ⟨by decide, (claim_C9_compact_shape (List.replicate 64 0 ++ [27])).2 (by decide)⟩
